import Mathlib

/-!
Verification of the chunked-upload relay server (Go, `main.go`, session-aware
variant): a shallow embedding of its path handling, chunk assembly, session
registry, and the two upload handlers, with theorems settling the spec claims.
-/

namespace PubUploader

/-! ## Path model: Go `path/filepath` lexical operations (Unix rules) -/

/-- Split a character list on `'/'`, keeping empty segments
(the element structure `strings`-style splitting would produce). -/
def splitSlash : List Char → List (List Char)
  | [] => [[]]
  | c :: rest =>
    let r := splitSlash rest
    if c = '/' then [] :: r
    else
      match r with
      | [] => [[c]]
      | h :: t => (c :: h) :: t

/-- One step of the element stack used by the lexical cleaner: skip empty and
`.` elements, resolve `..` against the stack (kept in reverse order). -/
def cleanStep (rooted : Bool) (st : List (List Char)) (e : List Char) : List (List Char) :=
  if e = [] ∨ e = ['.'] then st
  else if e = ['.', '.'] then
    match st with
    | [] => if rooted then [] else [['.', '.']]
    | top :: rest => if top = ['.', '.'] then e :: st else rest
  else e :: st

/-- Join segments with a separator character (models Go `strings.Join`). -/
def joinSep (sep : Char) : List (List Char) → List Char
  | [] => []
  | [a] => a
  | a :: rest => a ++ sep :: joinSep sep rest

/-- Go `filepath.Clean` on Unix, on character lists: shortest lexically
equivalent path (collapse slashes, drop `.`, resolve `..`). -/
def cleanChars (p : List Char) : List Char :=
  if p = [] then ['.']
  else
    let rooted := p.head? = some '/'
    let st := (splitSlash p).foldl (cleanStep rooted) []
    let body := joinSep '/' st.reverse
    if rooted then '/' :: body
    else if body = [] then ['.'] else body

/-- Go `filepath.Clean` (Unix). -/
def goClean (s : String) : String := (cleanChars s.data).asString

/-- Go `filepath.Base` on character lists: strip trailing slashes, keep the
last element; `"."` for the empty path, `"/"` for an all-slash path. -/
def baseChars (p : List Char) : List Char :=
  if p = [] then ['.']
  else
    let q := (p.reverse.dropWhile (fun c => decide (c = '/'))).reverse
    if q = [] then ['/']
    else (q.reverse.takeWhile (fun c => decide (c ≠ '/'))).reverse

/-- Go `filepath.Base` (Unix). -/
def goBase (s : String) : String := (baseChars s.data).asString

/-- Go `filepath.Join` restricted to two arguments: drop leading empty
arguments, join with `'/'`, then clean. -/
def goJoin (a b : String) : String :=
  if a = "" then (if b = "" then "" else goClean b)
  else goClean (a ++ "/" ++ b)

/-! ## Decimal digits: Go `fmt %d` and `strconv.Atoi` -/

/-- The character of a decimal digit (`'0'`–`'9'` for `d < 10`). -/
def digitChar (d : Nat) : Char := Char.ofNat (48 + d)

/-- Fuel-driven decimal printer; with fuel above `n` it yields the standard
most-significant-first digit string of `n`. -/
def natDigitsAux : Nat → Nat → List Char
  | 0, _ => []
  | fuel + 1, n =>
    if n < 10 then [digitChar n]
    else natDigitsAux fuel (n / 10) ++ [digitChar (n % 10)]

/-- Decimal digit string of a natural number. -/
def natDigits (n : Nat) : List Char := natDigitsAux (n + 1) n

/-- Decimal representation of a natural number as a string. -/
def natStr (n : Nat) : String := (natDigits n).asString

/-- Go `fmt.Sprintf "%d"` of a (non-wrapping) integer. -/
def goItoa (t : Int) : String :=
  if t < 0 then "-" ++ natStr (-t).toNat else natStr t.toNat

/-- Numeric value of a digit string (most significant first). -/
def digitsVal (ds : List Char) : Nat :=
  ds.foldl (fun a c => 10 * a + (c.toNat - 48)) 0

/-- Largest value of Go's 64-bit `int`. -/
def int64Max : Nat := 9223372036854775807

/-- Go `strconv.Atoi` with its error ignored, as the server does: optional
sign, all-digit body, clamped to the `int64` range on overflow; `0` on any
syntax error. -/
def goAtoi (s : String) : Int :=
  let cs := s.data
  let neg := cs.head? = some '-'
  let ds := if cs.head? = some '-' ∨ cs.head? = some '+' then cs.tail else cs
  if ds = [] ∨ ¬ (ds.all Char.isDigit = true) then 0
  else
    let v := digitsVal ds
    if neg then -(Int.ofNat (min v (int64Max + 1)))
    else Int.ofNat (min v int64Max)

/-! ## Chunk assembly (`handleUploadComplete` lines 229–253) -/

/-- The chunk-file ordering used by the finalize handler: compare file names
by their `Atoi` value (source: `sort.Slice` with `numI < numJ`). -/
def chunkLe (a b : String × List Nat) : Prop := goAtoi a.1 ≤ goAtoi b.1

instance : DecidableRel chunkLe :=
  fun a b => inferInstanceAs (Decidable (goAtoi a.1 ≤ goAtoi b.1))

instance : IsTotal (String × List Nat) chunkLe :=
  ⟨fun a b => le_total (goAtoi a.1) (goAtoi b.1)⟩

instance : IsTrans (String × List Nat) chunkLe :=
  ⟨fun _ _ _ h1 h2 => le_trans h1 h2⟩

/-- The handler's numeric sort of the directory listing (`sort.Slice` is some
comparison sort; with the `Atoi`-value ordering it is embedded as a sort that
is a sorted permutation of its input). -/
def sortChunks (files : List (String × List Nat)) : List (String × List Nat) :=
  List.insertionSort chunkLe files

/-- Chunk assembly: sort the stored chunk files by numeric index and
concatenate their contents (the `io.MultiReader` over the sorted opens). -/
def assembleChunks (files : List (String × List Nat)) : List Nat :=
  ((sortChunks files).map (fun f => f.2)).flatten

/-! ## Session registry (`UploadSession`, `handleUploadSession`,
`checkAndUpdateSession`) -/

/-- One tracked upload session (Go struct `UploadSession`; the mutex is the
serialization device and has no data content). -/
structure UploadSession where
  email : String
  phone : String
  dataOrigin : String
  uploadCount : Int
  completedCount : Int
deriving DecidableEq, Repr

/-- The global `uploadSessions` map, as an association list with unique keys
(Go map: lookup, overwrite on insert, delete). -/
abbrev Registry := List (String × UploadSession)

/-- Go map lookup `uploadSessions[id]`. -/
def lookupSession : Registry → String → Option UploadSession
  | [], _ => none
  | (k, s) :: rest, id => if k = id then some s else lookupSession rest id

/-- Go map `delete(uploadSessions, id)`. -/
def removeSession : Registry → String → Registry
  | [], _ => []
  | (k, s) :: rest, id =>
    if k = id then removeSession rest id else (k, s) :: removeSession rest id

/-- In-place mutation of the pointed-to session (`session.CompletedCount++`
acts through the stored pointer). -/
def updateSession : Registry → String → UploadSession → Registry
  | [], _, _ => []
  | (k, s) :: rest, id, s2 =>
    if k = id then (k, s2) :: updateSession rest id s2
    else (k, s) :: updateSession rest id s2

/-- `handleUploadSession`'s registry effect: insert a fresh session with the
declared file count, overwriting any previous entry with the same id. -/
def registerSession (reg : Registry) (id email phone dataOrigin : String)
    (totalFiles : Int) : Registry :=
  (id, ⟨email, phone, dataOrigin, totalFiles, 0⟩) :: removeSession reg id

/-- `checkAndUpdateSession`: under the registry mutex, look the session up
(absent → `true`), increment its completed count, and on
`completed ≥ expected` delete it and return `true`, else store the increment
and return `false`. The `folderName`/`email`/`phone`/`dataOrigin` parameters
are accepted and unused, as in the source. -/
def checkAndUpdateSession (reg : Registry)
    (sessionID folderName email phone dataOrigin : String) : Registry × Bool :=
  match lookupSession reg sessionID with
  | none => (reg, true)
  | some s =>
    let s2 : UploadSession := { s with completedCount := s.completedCount + 1 }
    if s2.completedCount ≥ s.uploadCount then (removeSession reg sessionID, true)
    else (updateSession reg sessionID s2, false)

/-- `n` serialized executions of `checkAndUpdateSession` for one id.  The Go
function holds `sessionsMutex` for its whole body, so any concurrent batch of
calls is equivalent to some sequential order; the calls are identical, so this
sequence covers every interleaving. -/
def runCompletions : Registry → String → Nat → Registry × List Bool
  | reg, _, 0 => (reg, [])
  | reg, id, n + 1 =>
    let r1 := checkAndUpdateSession reg id "" "" "" ""
    let r2 := runCompletions r1.1 id n
    (r2.1, r1.2 :: r2.2)

/-- The in-registry state predicate claimed by the spec: every stored session
is strictly below its expected count. -/
def RegistryWF (reg : Registry) : Prop :=
  ∀ e ∈ reg, e.2.completedCount < e.2.uploadCount

instance (reg : Registry) : Decidable (RegistryWF reg) :=
  inferInstanceAs (Decidable (∀ e ∈ reg, e.2.completedCount < e.2.uploadCount))

/-- Registry operations reachable from the HTTP surface. -/
inductive RegOp where
  | register (id email phone dataOrigin : String) (totalFiles : Int)
  | complete (id folderName email phone dataOrigin : String)
deriving DecidableEq, Repr

/-- Apply one registry operation. -/
def applyOp (reg : Registry) : RegOp → Registry
  | .register id e p d n => registerSession reg id e p d n
  | .complete id f e p d => (checkAndUpdateSession reg id f e p d).1

/-- Run a sequence of registry operations from a starting registry. -/
def runOps (reg : Registry) (ops : List RegOp) : Registry := ops.foldl applyOp reg

/-- Whether an operation declares a positive expected count (registrations
only; completions are unrestricted). -/
def opPositive : RegOp → Bool
  | .register _ _ _ _ n => 1 ≤ n
  | .complete _ _ _ _ _ => true

/-! ## Handler embeddings -/

/-- Environment outcomes for one `/upload-chunk` request: whether the scratch
`MkdirAll`, the chunk-file `Create`, and the `io.Copy` succeed. -/
structure ChunkEnv where
  mkdirOk : Bool
  createOk : Bool
  copyOk : Bool
deriving DecidableEq, Repr

/-- Observable outcome of one `/upload-chunk` request: HTTP status, whether
any scratch-filesystem access happened, and the chunk file path written. -/
structure ChunkOutcome where
  status : Nat
  fsAccessed : Bool
  writtenPath : Option String
deriving DecidableEq, Repr

/-- `handleUploadChunk` after form decoding: sanitize the upload id
(`Clean (Base uploadID)`, rejecting `.`/`..` with 400 before touching the
filesystem), then create the scratch directory and write the chunk under the
client-supplied `chunkIndex` name. -/
def handleUploadChunk (tempDir uploadID chunkIndex : String)
    (env : ChunkEnv) : ChunkOutcome :=
  let cleanUploadID := goClean (goBase uploadID)
  if cleanUploadID = "." ∨ cleanUploadID = ".." then ⟨400, false, none⟩
  else
    let chunkDir := goJoin tempDir cleanUploadID
    if ¬ env.mkdirOk then ⟨500, true, none⟩
    else
      let chunkPath := goJoin chunkDir chunkIndex
      if ¬ env.createOk then ⟨500, true, none⟩
      else if ¬ env.copyOk then ⟨500, true, some chunkPath⟩
      else ⟨200, true, some chunkPath⟩

/-! ## Folder naming and finalize pipeline -/

/-- Go `strings.ReplaceAll` for a single-character pattern. -/
def replaceChar (c : Char) (r : List Char) : List Char → List Char
  | [] => []
  | x :: xs =>
    if x = c then r ++ replaceChar c r xs else x :: replaceChar c r xs

/-- Email sanitization for folder names: `@` → `_at_`, `.` → `_`. -/
def sanitizeEmail (email : String) : String :=
  (replaceChar '.' ['_'] (replaceChar '@' ['_', 'a', 't', '_'] email.data)).asString

/-- Phone sanitization for folder names: drop spaces, dashes and parentheses,
`+` → `plus`. -/
def sanitizePhone (phone : String) : String :=
  (replaceChar '+' ['p', 'l', 'u', 's']
    (replaceChar ')' []
      (replaceChar '(' []
        (replaceChar '-' []
          (replaceChar ' ' [] phone.data))))).asString

/-- Go `strings.Join`. -/
def goStringsJoin (sep : String) : List String → String
  | [] => ""
  | [a] => a
  | a :: rest => a ++ sep ++ goStringsJoin sep rest

/-- `createFolderName`: timestamp component, then the sanitized email when the
email is non-empty, then the sanitized phone when the phone is non-empty,
joined with `-`.  The wall clock enters as the `timestamp` parameter
(`time.Now().Unix()`). -/
def createFolderName (timestamp : Int) (email phone : String) : String :=
  let components := [goItoa timestamp]
  let components := if email ≠ "" then components ++ [sanitizeEmail email] else components
  let components := if phone ≠ "" then components ++ [sanitizePhone phone] else components
  goStringsJoin "-" components

/-- Decoded body of one `/upload-complete` request (Go `CompleteRequest`). -/
structure CompleteRequest where
  uploadID : String
  fileName : String
  email : String
  phone : String
  dataOrigin : String
  sessionID : String
  totalFiles : Int
deriving DecidableEq, Repr

/-- External outcomes for one finalize call: the scratch directory listing
(`none` = `ReadDir` error), the chunk-file names whose `os.Open` fails, the
results of the folder-create, main-file put and note put, the note existence
probe, and the current clock. -/
structure CompleteEnv where
  chunkFiles : Option (List (String × List Nat))
  openFails : List String
  mkcolOk : Bool
  putMainOk : Bool
  noteExists : Bool
  putNoteOk : Bool
  timestamp : Int
deriving DecidableEq, Repr

/-- Observable outcome of one finalize call: HTTP status, whether the deferred
`os.RemoveAll` of the scratch directory ran, whether any scratch-filesystem
access happened, the number of `putFile` calls for the note, the bytes put as
the main file, and the registry afterwards. -/
structure CompleteOutcome where
  status : Nat
  scratchRemoved : Bool
  fsAccessed : Bool
  notePuts : Nat
  uploadedBytes : Option (List Nat)
  registry : Registry
deriving DecidableEq, Repr

/-- `handleUploadComplete` after JSON decoding: sanitize the upload id
(reject `.`/`..` with 400 before any filesystem access), then — with the
scratch directory removal deferred on every later path — list and open the
chunks, assemble them, create the destination folder, put the main file,
consult the session registry when a session id is declared, and put the
metadata note only when it should be written and the existence probe says it
is absent. -/
def handleUploadComplete (tempDir : String) (env : CompleteEnv) (reg : Registry)
    (req : CompleteRequest) : CompleteOutcome :=
  let cleanUploadID := goClean (goBase req.uploadID)
  if cleanUploadID = "." ∨ cleanUploadID = ".." then ⟨400, false, false, 0, none, reg⟩
  else
    match env.chunkFiles with
    | none => ⟨500, true, true, 0, none, reg⟩
    | some files =>
      if files.any (fun f => env.openFails.contains f.1) then ⟨500, true, true, 0, none, reg⟩
      else
        let bytes := assembleChunks files
        let folderName := createFolderName env.timestamp req.email req.phone
        if ¬ env.mkcolOk then ⟨500, true, true, 0, none, reg⟩
        else if ¬ env.putMainOk then ⟨500, true, true, 0, none, reg⟩
        else
          let sessionStep :=
            if req.sessionID ≠ "" then
              checkAndUpdateSession reg req.sessionID folderName req.email req.phone req.dataOrigin
            else (reg, true)
          if sessionStep.2 then
            if env.noteExists then ⟨200, true, true, 0, some bytes, sessionStep.1⟩
            else if env.putNoteOk then ⟨200, true, true, 1, some bytes, sessionStep.1⟩
            else ⟨500, true, true, 1, some bytes, sessionStep.1⟩
          else ⟨200, true, true, 0, some bytes, sessionStep.1⟩

/-! ## Helper lemmas: decimal digits and `Atoi` -/

theorem toNat_digitChar {d : Nat} (hd : d < 10) : (digitChar d).toNat = 48 + d := by
  interval_cases d <;> decide

theorem isDigit_digitChar {d : Nat} (hd : d < 10) : (digitChar d).isDigit = true := by
  interval_cases d <;> decide

theorem natDigitsAux_all_digits (fuel : Nat) : ∀ (n : Nat), ∀ c ∈ natDigitsAux fuel n,
    c.isDigit = true := by
  induction fuel with
  | zero => intro n c hc; simp [natDigitsAux] at hc
  | succ k ih =>
    intro n c hc
    unfold natDigitsAux at hc
    split at hc
    · next h10 =>
      rw [List.mem_singleton] at hc
      rw [hc]
      exact isDigit_digitChar h10
    · rcases List.mem_append.mp hc with h | h
      · exact ih (n / 10) c h
      · rw [List.mem_singleton] at h
        rw [h]
        exact isDigit_digitChar (Nat.mod_lt _ (by omega))

theorem natDigits_all_digits (n : Nat) : ∀ c ∈ natDigits n, c.isDigit = true :=
  natDigitsAux_all_digits (n + 1) n

theorem natDigits_ne_nil (n : Nat) : natDigits n ≠ [] := by
  unfold natDigits natDigitsAux
  split
  · simp
  · simp

theorem digitsVal_append_one (l : List Char) (c : Char) :
    digitsVal (l ++ [c]) = 10 * digitsVal l + (c.toNat - 48) := by
  unfold digitsVal
  rw [List.foldl_append]
  rfl

theorem digitsVal_natDigitsAux (fuel : Nat) : ∀ n : Nat, n < fuel →
    digitsVal (natDigitsAux fuel n) = n := by
  induction fuel with
  | zero => omega
  | succ k ih =>
    intro n hn
    unfold natDigitsAux
    split
    · next h10 =>
      show digitsVal [digitChar n] = n
      unfold digitsVal
      simp [toNat_digitChar h10]
    · next h10 =>
      rw [digitsVal_append_one, ih (n / 10) (by omega),
        toNat_digitChar (Nat.mod_lt _ (by omega))]
      omega

theorem digitsVal_natDigits (n : Nat) : digitsVal (natDigits n) = n :=
  digitsVal_natDigitsAux (n + 1) n (by omega)

theorem natDigits_injective {m n : Nat} (h : natDigits m = natDigits n) : m = n := by
  have := congrArg digitsVal h
  rwa [digitsVal_natDigits, digitsVal_natDigits] at this

theorem digit_ne_dash {c : Char} (h : c.isDigit = true) : c ≠ '-' := by
  intro hc
  rw [hc] at h
  exact absurd h (by decide)

theorem digit_ne_plus {c : Char} (h : c.isDigit = true) : c ≠ '+' := by
  intro hc
  rw [hc] at h
  exact absurd h (by decide)

theorem goAtoi_natStr (n : Nat) (hn : n ≤ int64Max) : goAtoi (natStr n) = (n : Int) := by
  have hdata : (natStr n).data = natDigits n := rfl
  obtain ⟨c, rest, hcons⟩ := List.exists_cons_of_ne_nil (natDigits_ne_nil n)
  have hcdig : c.isDigit = true := by
    apply natDigits_all_digits n
    rw [hcons]
    exact List.mem_cons_self _ _
  have hhead : (natDigits n).head? = some c := by rw [hcons]; rfl
  have hnotdash : ¬ (natDigits n).head? = some '-' := by
    rw [hhead]
    intro hx
    exact digit_ne_dash hcdig (by injection hx)
  have hnotplus : ¬ (natDigits n).head? = some '+' := by
    rw [hhead]
    intro hx
    exact digit_ne_plus hcdig (by injection hx)
  have hsign : ¬ ((natDigits n).head? = some '-' ∨ (natDigits n).head? = some '+') := by
    intro h
    rcases h with h | h
    · exact hnotdash h
    · exact hnotplus h
  have hne : ¬ (natDigits n = [] ∨ ¬ ((natDigits n).all Char.isDigit = true)) := by
    intro h
    rcases h with h | h
    · exact natDigits_ne_nil n h
    · exact h (List.all_eq_true.mpr (natDigits_all_digits n))
  unfold goAtoi
  rw [hdata]
  simp only [if_neg hsign]
  rw [if_neg hne, if_neg hnotdash, digitsVal_natDigits]
  simp [Nat.min_eq_left hn]

/-! ## Helper lemmas: session registry -/

theorem lookupSession_updateSession (reg : Registry) (id : String) (s s2 : UploadSession)
    (h : lookupSession reg id = some s) :
    lookupSession (updateSession reg id s2) id = some s2 := by
  induction reg with
  | nil => simp [lookupSession] at h
  | cons e rest ih =>
    obtain ⟨k, v⟩ := e
    by_cases hk : k = id
    · simp [lookupSession, updateSession, hk]
    · simp only [lookupSession, updateSession, if_neg hk] at h ⊢
      exact ih h

theorem runCompletions_spec (m : Nat) : ∀ (reg : Registry) (id : String) (s : UploadSession),
    lookupSession reg id = some s → s.completedCount + (m : Int) = s.uploadCount → 1 ≤ m →
    (runCompletions reg id m).2 = List.replicate (m - 1) false ++ [true] := by
  induction m with
  | zero => intro _ _ _ _ _ hm; omega
  | succ k ih =>
    intro reg id s hlook hsum _
    rcases Nat.eq_zero_or_pos k with hk | hk
    · subst hk
      have hge : s.completedCount + 1 ≥ s.uploadCount := by push_cast at hsum; omega
      simp only [runCompletions, checkAndUpdateSession, hlook]
      rw [if_pos hge]
      rfl
    · have hlt : ¬ (s.completedCount + 1 ≥ s.uploadCount) := by push_cast at hsum; omega
      simp only [runCompletions, checkAndUpdateSession, hlook]
      rw [if_neg hlt]
      have hlook2 := lookupSession_updateSession reg id s
        { s with completedCount := s.completedCount + 1 } hlook
      have htail := ih (updateSession reg id { s with completedCount := s.completedCount + 1 })
        id { s with completedCount := s.completedCount + 1 } hlook2
        (by push_cast at hsum ⊢; omega) hk
      simp only [htail]
      have hrep : k + 1 - 1 = (k - 1) + 1 := by omega
      rw [hrep, List.replicate_succ]
      rfl

theorem mem_removeSession {reg : Registry} {id : String} {e : String × UploadSession}
    (h : e ∈ removeSession reg id) : e ∈ reg := by
  induction reg with
  | nil => simp [removeSession] at h
  | cons a rest ih =>
    obtain ⟨k, v⟩ := a
    by_cases hk : k = id
    · simp only [removeSession, if_pos hk] at h
      exact List.mem_cons_of_mem _ (ih h)
    · simp only [removeSession, if_neg hk, List.mem_cons] at h
      rcases h with h | h
      · exact List.mem_cons.mpr (Or.inl h)
      · exact List.mem_cons_of_mem _ (ih h)

theorem mem_updateSession {reg : Registry} {id : String} {s2 : UploadSession}
    {e : String × UploadSession} (h : e ∈ updateSession reg id s2) : e ∈ reg ∨ e.2 = s2 := by
  induction reg with
  | nil => simp [updateSession] at h
  | cons a rest ih =>
    obtain ⟨k, v⟩ := a
    by_cases hk : k = id
    · simp only [updateSession, if_pos hk, List.mem_cons] at h
      rcases h with h | h
      · right; rw [h]
      · rcases ih h with h | h
        · exact Or.inl (List.mem_cons_of_mem _ h)
        · exact Or.inr h
    · simp only [updateSession, if_neg hk, List.mem_cons] at h
      rcases h with h | h
      · exact Or.inl (List.mem_cons.mpr (Or.inl h))
      · rcases ih h with h | h
        · exact Or.inl (List.mem_cons_of_mem _ h)
        · exact Or.inr h

theorem registerSession_wf {reg : Registry} (hreg : RegistryWF reg)
    (id email phone dataOrigin : String) {n : Int} (hn : 1 ≤ n) :
    RegistryWF (registerSession reg id email phone dataOrigin n) := by
  intro e he
  rcases List.mem_cons.mp he with h | h
  · rw [h]; simpa using hn
  · exact hreg e (mem_removeSession h)

theorem checkAndUpdateSession_wf {reg : Registry} (hreg : RegistryWF reg)
    (id f em ph d : String) :
    RegistryWF (checkAndUpdateSession reg id f em ph d).1 := by
  unfold checkAndUpdateSession
  cases hlook : lookupSession reg id with
  | none => exact hreg
  | some s =>
    dsimp only
    split
    · intro e he; exact hreg e (mem_removeSession he)
    · next hcond =>
      intro e he
      rcases mem_updateSession he with h | h
      · exact hreg e h
      · rw [h]; simp only at hcond ⊢; omega

theorem runOps_wf (ops : List RegOp) : ∀ reg : Registry, RegistryWF reg →
    (∀ op ∈ ops, opPositive op = true) → RegistryWF (runOps reg ops) := by
  induction ops with
  | nil => intro reg h _; exact h
  | cons op rest ih =>
    intro reg hreg hops
    have hstep : RegistryWF (applyOp reg op) := by
      cases op with
      | register id e p d n =>
        have hpos := hops _ (List.mem_cons_self _ _)
        simp only [opPositive, decide_eq_true_eq] at hpos
        exact registerSession_wf hreg id e p d hpos
      | complete id f e p d => exact checkAndUpdateSession_wf hreg id f e p d
    exact ih (applyOp reg op) hstep (fun o ho => hops o (List.mem_cons_of_mem _ ho))

/-! ## Helper lemmas: folder naming -/

theorem createFolderName_eq (t : Int) (email phone : String) :
    createFolderName t email phone =
      goItoa t ++ (if email = "" then "" else "-" ++ sanitizeEmail email)
               ++ (if phone = "" then "" else "-" ++ sanitizePhone phone) := by
  unfold createFolderName
  by_cases he : email = "" <;> by_cases hp : phone = "" <;>
    simp [he, hp, goStringsJoin, String.append_assoc]

theorem takeWhile_no_dash (l r : List Char) (hl : ∀ c ∈ l, c ≠ '-')
    (hr : r = [] ∨ ∃ r0, r = '-' :: r0) :
    (l ++ r).takeWhile (fun c => decide (c ≠ '-')) = l := by
  induction l with
  | nil =>
    rcases hr with h | ⟨r0, h⟩ <;> subst h <;> simp
  | cons c cs ih =>
    have hc : c ≠ '-' := hl c (List.mem_cons_self _ _)
    simp only [List.cons_append, List.takeWhile_cons, decide_eq_true_eq]
    rw [if_pos hc, ih (fun x hx => hl x (List.mem_cons_of_mem _ hx))]

theorem goItoa_nonneg (t : Int) (ht : 0 ≤ t) : goItoa t = natStr t.toNat := by
  unfold goItoa
  rw [if_neg (by omega)]

theorem folderName_timestamp (t : Int) (ht : 0 ≤ t) (e p : String) :
    (createFolderName t e p).data.takeWhile (fun c => decide (c ≠ '-'))
      = natDigits t.toNat := by
  rw [createFolderName_eq, goItoa_nonneg t ht]
  rw [String.data_append, String.data_append]
  rw [List.append_assoc]
  apply takeWhile_no_dash
  · intro c hc
    exact digit_ne_dash (natDigits_all_digits t.toNat c hc)
  · by_cases he : e = "" <;> by_cases hp : p = "" <;> simp [he, hp, String.data_append]

theorem createFolderName_timestamp_injective (t1 t2 : Int) (e1 p1 e2 p2 : String)
    (ht1 : 0 ≤ t1) (ht2 : 0 ≤ t2) (hne : t1 ≠ t2) :
    createFolderName t1 e1 p1 ≠ createFolderName t2 e2 p2 := by
  intro heq
  have h := congrArg (fun s : String => s.data.takeWhile (fun c => decide (c ≠ '-'))) heq
  simp only at h
  rw [folderName_timestamp t1 ht1, folderName_timestamp t2 ht2] at h
  have := natDigits_injective h
  omega

/-! ## Claim theorems -/

/-- C1: for every set of stored chunks with indices `0..N-1` for one upload
identifier, in whatever order the chunk files arrived (any permutation of the
canonical listing), the finalize handler's assembly step produces the
concatenation of the chunk contents in ascending numeric index order.  The
bound `N ≤ int64Max` keeps every index inside Go's `int` range, where `Atoi`
parses the chunk file names exactly. -/
theorem assemble_ascending (N : Nat) (hN : N ≤ int64Max) (content : Nat → List Nat)
    (l : List (String × List Nat))
    (hl : l.Perm ((List.range N).map (fun i => (natStr i, content i)))) :
    assembleChunks l = ((List.range N).map content).flatten := by
  have hkey : ∀ i ∈ List.range N, goAtoi (natStr i) = (i : Int) := by
    intro i hi
    exact goAtoi_natStr i (le_trans (le_of_lt (List.mem_range.mp hi)) hN)
  have htarget_lt : List.Pairwise (fun a b : String × List Nat => goAtoi a.1 < goAtoi b.1)
      ((List.range N).map (fun i => (natStr i, content i))) := by
    rw [List.pairwise_map]
    refine List.Pairwise.imp_of_mem ?_ (List.pairwise_lt_range N)
    intro a b ha hb hab
    show goAtoi (natStr a) < goAtoi (natStr b)
    rw [hkey a ha, hkey b hb]
    exact_mod_cast hab
  have hperm : (sortChunks l).Perm ((List.range N).map (fun i => (natStr i, content i))) :=
    (List.perm_insertionSort chunkLe l).trans hl
  have hsorted_le : List.Sorted chunkLe (sortChunks l) :=
    List.sorted_insertionSort chunkLe l
  have htarget_ne : List.Pairwise (fun a b : String × List Nat => goAtoi a.1 ≠ goAtoi b.1)
      ((List.range N).map (fun i => (natStr i, content i))) :=
    htarget_lt.imp (fun h => ne_of_lt h)
  have hsort_ne : List.Pairwise (fun a b : String × List Nat => goAtoi a.1 ≠ goAtoi b.1)
      (sortChunks l) :=
    (List.Perm.pairwise_iff (fun h => Ne.symm h) hperm).mpr htarget_ne
  have hsort_lt : List.Pairwise (fun a b : String × List Nat => goAtoi a.1 < goAtoi b.1)
      (sortChunks l) :=
    (hsorted_le.and hsort_ne).imp (fun h => lt_of_le_of_ne h.1 h.2)
  have heq : sortChunks l = (List.range N).map (fun i => (natStr i, content i)) :=
    @List.eq_of_perm_of_sorted _ _ ⟨fun a b h1 h2 => absurd h2 (lt_asymm h1)⟩ _ _
      hperm hsort_lt htarget_lt
  unfold assembleChunks
  rw [heq, List.map_map]
  rfl

/-- Witness for C1: three chunks stored in the order 2, 0, 1 assemble to the
contents in index order 0, 1, 2. -/
theorem assemble_ascending_witness :
    assembleChunks [("2", [22]), ("0", [20]), ("1", [21])] = [20, 21, 22] := by
  have h := assemble_ascending 3 (by decide) (fun i => [20 + i])
    [("2", [22]), ("0", [20]), ("1", [21])] (by decide)
  exact h.trans (by decide)

/-- C2 counterexample: the upload identifier `../foo` contains `../`, yet the
chunk handler does not reject it with a client error — it reduces it to its
base component `foo`, answers 200 and accesses the filesystem. -/
theorem traversal_id_accepted :
    (['.', '.', '/'].isPrefixOf "../foo".data = true) ∧
    handleUploadChunk "/tmp/up" "../foo" "0" ⟨true, true, true⟩
      = ⟨200, true, some "/tmp/up/foo/0"⟩ := by decide

/-- C2 (amended): both handlers reject an upload identifier with a client
error (400) before any filesystem access exactly when the identifier
resolves to `.` or `..` after normalization (reduction to its base
component, then path cleaning).  Containing `../` or being an absolute path
does not by itself decide the outcome: such an identifier is rejected
precisely when its normalized base component is `.` or `..` (so `../foo` is
accepted as `foo`, while `a/../` and `/..` are rejected). -/
theorem invalid_id_rejected (tempDir uploadID chunkIndex : String) (cenv : ChunkEnv)
    (tempDir2 : String) (env : CompleteEnv) (reg : Registry) (req : CompleteRequest)
    (hreq : req.uploadID = uploadID) :
    (handleUploadChunk tempDir uploadID chunkIndex cenv = ⟨400, false, none⟩
      ↔ (goClean (goBase uploadID) = "." ∨ goClean (goBase uploadID) = "..")) ∧
    (handleUploadComplete tempDir2 env reg req = ⟨400, false, false, 0, none, reg⟩
      ↔ (goClean (goBase uploadID) = "." ∨ goClean (goBase uploadID) = "..")) := by
  constructor
  · constructor
    · intro h
      by_contra hc
      have hfs : (handleUploadChunk tempDir uploadID chunkIndex cenv).fsAccessed = true := by
        unfold handleUploadChunk
        rw [if_neg hc]
        dsimp only
        repeat' first | rfl | split
      rw [h] at hfs
      exact absurd hfs (by decide)
    · intro h
      unfold handleUploadChunk
      rw [if_pos h]
  · constructor
    · intro h
      by_contra hc
      rw [← hreq] at hc
      have hfs : (handleUploadComplete tempDir2 env reg req).fsAccessed = true := by
        unfold handleUploadComplete
        rw [if_neg hc]
        rcases env.chunkFiles with _ | files
        · rfl
        · dsimp only
          repeat' first | rfl | split
      rw [h] at hfs
      simp at hfs
    · intro h
      unfold handleUploadComplete
      rw [hreq, if_pos h]

/-- Witness for the amended C2: the identifier `a/..` normalizes to `..` and
both handlers answer 400 without touching the filesystem. -/
theorem invalid_id_rejected_witness :
    handleUploadChunk "/tmp/up" "a/.." "0" ⟨true, true, true⟩ = ⟨400, false, none⟩ ∧
    handleUploadComplete "/tmp/up" ⟨some [], [], true, true, false, true, 0⟩ []
      ⟨"a/..", "f", "", "", "", "", 1⟩ = ⟨400, false, false, 0, none, []⟩ := by
  have h := invalid_id_rejected "/tmp/up" "a/.." "0" ⟨true, true, true⟩ "/tmp/up"
    ⟨some [], [], true, true, false, true, 0⟩ [] ⟨"a/..", "f", "", "", "", "", 1⟩ rfl
  exact ⟨h.1.mpr (by decide), h.2.mpr (by decide)⟩

/-- C3: `recordCompletion` executed `totalFiles` times against one registered
session returns `true` exactly once and `false` on every other call.  The Go
function holds the registry mutex for its entire body, so a concurrent batch
of calls serializes into some sequential order, and since the calls are
identical, every interleaving is the sequence modelled by
`runCompletions`. -/
theorem recordCompletion_exactly_one (reg : Registry) (id email phone dataOrigin : String)
    (n : Nat) (hn : 1 ≤ n) :
    (runCompletions (registerSession reg id email phone dataOrigin (n : Int)) id n).2
      = List.replicate (n - 1) false ++ [true] ∧
    ((runCompletions (registerSession reg id email phone dataOrigin (n : Int)) id n).2).count
      true = 1 := by
  have hlook : lookupSession (registerSession reg id email phone dataOrigin (n : Int)) id
      = some ⟨email, phone, dataOrigin, (n : Int), 0⟩ := by
    simp [registerSession, lookupSession]
  have h := runCompletions_spec n (registerSession reg id email phone dataOrigin (n : Int)) id
    ⟨email, phone, dataOrigin, (n : Int), 0⟩ hlook (by simp) hn
  refine ⟨h, ?_⟩
  rw [h]
  simp [List.count_append, List.count_replicate]

/-- Witness for C3 at `totalFiles = 3`. -/
theorem recordCompletion_exactly_one_witness :
    (runCompletions (registerSession [] "sess" "e" "p" "d" (3 : Int)) "sess" 3).2
      = List.replicate 2 false ++ [true] ∧
    ((runCompletions (registerSession [] "sess" "e" "p" "d" (3 : Int)) "sess" 3).2).count
      true = 1 :=
  recordCompletion_exactly_one [] "sess" "e" "p" "d" 3 (by decide)

/-- C4: after registering a session with expected count 3, three sequential
`recordCompletion` calls return `false`, `false`, `true`, and the session is
gone from the registry afterwards. -/
theorem session_three_completions :
    (runCompletions (registerSession [] "s" "e" "p" "d" 3) "s" 3).2 = [false, false, true] ∧
    lookupSession (runCompletions (registerSession [] "s" "e" "p" "d" 3) "s" 3).1 "s" = none := by
  decide

/-- C5: `recordCompletion` on a session id that is not in the registry
returns `true` and leaves the registry unchanged. -/
theorem recordCompletion_unknown (reg : Registry) (id f e p d : String)
    (h : lookupSession reg id = none) :
    checkAndUpdateSession reg id f e p d = (reg, true) := by
  unfold checkAndUpdateSession
  rw [h]

/-- Witness for C5: an id absent from a one-entry registry. -/
theorem recordCompletion_unknown_witness :
    checkAndUpdateSession [("a", ⟨"e", "p", "d", 2, 0⟩)] "b" "" "" "" ""
      = ([("a", ⟨"e", "p", "d", 2, 0⟩)], true) :=
  recordCompletion_unknown [("a", ⟨"e", "p", "d", 2, 0⟩)] "b" "" "" "" "" (by decide)

/-- C6 counterexample: registering a session with `totalFiles = 0` puts a
session with completed count equal to (not strictly below) its expected count
into the registry, so the claimed invariant fails for arbitrary `totalFiles`
values already at the register operation. -/
theorem registry_invariant_cex :
    ¬ RegistryWF (runOps [] [RegOp.register "s" "e" "p" "d" 0]) := by decide

/-- C6 (amended): every session present in the registry satisfies
completed count strictly below expected count, and the predicate is preserved
across every sequence of register and `recordCompletion` operations, provided
each registration declares a positive `totalFiles`. -/
theorem registry_invariant (ops : List RegOp) (hops : ∀ op ∈ ops, opPositive op = true) :
    RegistryWF (runOps [] ops) :=
  runOps_wf ops [] (by intro e he; simp at he) hops

/-- Witness for the amended C6: a register followed by a completion. -/
theorem registry_invariant_witness :
    RegistryWF (runOps [] [RegOp.register "s" "e" "p" "d" 2,
      RegOp.complete "s" "f" "e" "p" "d"]) :=
  registry_invariant [RegOp.register "s" "e" "p" "d" 2, RegOp.complete "s" "f" "e" "p" "d"]
    (by decide)

/-- C7: for every finalize call whose upload identifier passes validation,
the deferred scratch-directory removal runs before the call returns on every
exit path — chunk-listing failure, chunk-open failure, folder-create failure,
main-upload failure, note failure and success alike (the environment
quantifies over all of them). -/
theorem scratch_always_removed (tempDir : String) (env : CompleteEnv) (reg : Registry)
    (req : CompleteRequest)
    (h : ¬ (goClean (goBase req.uploadID) = "." ∨ goClean (goBase req.uploadID) = "..")) :
    (handleUploadComplete tempDir env reg req).scratchRemoved = true := by
  unfold handleUploadComplete
  rw [if_neg h]
  rcases env.chunkFiles with _ | files
  · rfl
  · dsimp only
    repeat' first | rfl | split

/-- Witness for C7: a valid identifier whose chunk listing fails still has
its scratch area removed. -/
theorem scratch_always_removed_witness :
    (handleUploadComplete "/tmp/up" ⟨none, [], true, true, false, true, 0⟩ []
      ⟨"u", "f", "", "", "", "", 1⟩).scratchRemoved = true :=
  scratch_always_removed "/tmp/up" ⟨none, [], true, true, false, true, 0⟩ []
    ⟨"u", "f", "", "", "", "", 1⟩ (by decide)

/-- C8: whenever the existence probe for the metadata note answers `true`,
the finalize handler performs no `putFile` call for the note. -/
theorem note_skip_idempotent (tempDir : String) (env : CompleteEnv) (reg : Registry)
    (req : CompleteRequest) (h : env.noteExists = true) :
    (handleUploadComplete tempDir env reg req).notePuts = 0 := by
  unfold handleUploadComplete
  rw [h]
  by_cases hv : goClean (goBase req.uploadID) = "." ∨ goClean (goBase req.uploadID) = ".."
  · rw [if_pos hv]
  · rw [if_neg hv]
    rcases env.chunkFiles with _ | files
    · rfl
    · dsimp only
      repeat' first | rfl | split

/-- Witness for C8: a successful finalize against an already-present note
performs zero note uploads. -/
theorem note_skip_idempotent_witness :
    (handleUploadComplete "/tmp/up" ⟨some [("0", [1])], [], true, true, true, true, 0⟩ []
      ⟨"u", "f", "", "", "", "", 1⟩).notePuts = 0 :=
  note_skip_idempotent "/tmp/up" ⟨some [("0", [1])], [], true, true, true, true, 0⟩ []
    ⟨"u", "f", "", "", "", "", 1⟩ rfl

/-- C9 counterexample: two submissions in the same clock second with distinct
emails (`a.b` and `a_b`, which sanitize identically) receive the same folder
name, so folder names do collide across submissions. -/
theorem folder_name_collision :
    ("a.b" ≠ "a_b") ∧
    createFolderName 1700000000 "a.b" "" = createFolderName 1700000000 "a_b" "" := by decide

/-- C9 (amended): the destination folder name is a deterministic function of
the current Unix second, email and phone — it always begins with the
timestamp component, appends the sanitized email exactly when the email is
non-empty and the sanitized phone exactly when the phone is non-empty — and
two submissions with distinct (non-negative) timestamps never receive the
same folder name; only same-second submissions can collide. -/
theorem folder_name_deterministic (t1 : Int) (email phone : String) (t2 : Int)
    (e2 p2 : String) (ht1 : 0 ≤ t1) (ht2 : 0 ≤ t2) (hne : t1 ≠ t2) :
    createFolderName t1 email phone =
      goItoa t1 ++ (if email = "" then "" else "-" ++ sanitizeEmail email)
                ++ (if phone = "" then "" else "-" ++ sanitizePhone phone) ∧
    createFolderName t1 email phone ≠ createFolderName t2 e2 p2 :=
  ⟨createFolderName_eq t1 email phone,
   createFolderName_timestamp_injective t1 t2 email phone e2 p2 ht1 ht2 hne⟩

/-- Witness for the amended C9 at two concrete seconds. -/
theorem folder_name_deterministic_witness :
    createFolderName 1700000000 "a@b.c" "" = "1700000000-a_at_b_c" ∧
    createFolderName 1700000000 "a@b.c" "" ≠ createFolderName 1700000001 "x" "y" := by
  have h := folder_name_deterministic 1700000000 "a@b.c" "" 1700000001 "x" "y"
    (by decide) (by decide) (by decide)
  exact ⟨h.1.trans (by decide), h.2⟩

/-- C10: the chunk handler joins the client-supplied `chunkIndex` to the
scratch directory without validating it, so a `chunkIndex` containing `..`
segments makes the written chunk path escape that upload's scratch
directory: with the default scratch root, upload id `u` and index `../../x`,
the handler answers 200 and writes `/tmp/x`, which does not lie under the
upload's scratch directory. -/
theorem chunk_index_escapes :
    (handleUploadChunk "/tmp/nextcloud-public-uploader/" "u" "../../x" ⟨true, true, true⟩
      = ⟨200, true, some "/tmp/x"⟩) ∧
    ("/tmp/nextcloud-public-uploader/u/".data.isPrefixOf "/tmp/x".data = false) := by decide

end PubUploader
